import Mathlib

/-!
Verification development for the RAIS IIIF image server.

This file gives a shallow embedding of the parts of the code base that the
checked properties talk about:

* the `iiif` Size spec parser (`StringToSize`) and its validity predicate
  (`Size.Valid`), including faithful models of the Go 1.7 standard-library
  functions `strconv.Atoi` and `strconv.ParseFloat` that the parser calls
  (the build environment pins Go 1.7, so the pre-1.13 numeric syntax --
  no hex floats, no underscores -- is the one modelled);
* the HTTP handler (`IIIFHandler.Route`, `Info`, `Command`,
  `loadInfoJSONOverride`, `buildInfoJSON`, `newImageResError`, `acceptsLD`)
  as a pure function from an oracle describing the collaborator outcomes
  (image resource opening, override file reads, URL validity, feature
  negotiation, decode/encode results) to a response plus a trace of the
  side effects the handler performed, in order.

Go strings are modelled as `String`/`List Char` (the code only slices at
ASCII prefixes, where byte and character indexing agree); Go `int` is `Int`
with the `strconv` clamping made explicit; Go `float64` is modelled by
`GoFloat` (an exact rational, an infinity, or NaN -- float64 rounding and
overflow/underflow at the extremes of the exponent range are not modelled,
none of the checked properties depend on them).  A Go run-time panic is
modelled as `Option.none`.
-/

namespace Rais

/-- The `iiif.SizeType` enumeration, in source order (`STNone` is the zero
value). -/
inductive SizeType where
  | STNone
  | STFull
  | STScaleToWidth
  | STScaleToHeight
  | STScalePercent
  | STExact
  | STBestFit
deriving DecidableEq, Repr

/-- Model of a Go `float64` value as produced by `strconv.ParseFloat`:
an exact rational, a signed infinity, or NaN.  Rounding to binary64 and
overflow/underflow at the extremes of the exponent range are not modelled;
sign and zero-ness of every parsed decimal are exact. -/
inductive GoFloat where
  | finite (q : ℚ)
  | inf (neg : Bool)
  | nan
deriving DecidableEq, Repr

/-- The Go comparison `f > 0` on a `float64`: positive infinity compares
greater than zero, NaN compares false. -/
def GoFloat.gt0 : GoFloat → Bool
  | .finite q => decide (0 < q)
  | .inf neg => !neg
  | .nan => false

/-- The `iiif.Size` struct.  The Go field `Type` is renamed `type` (the
capitalised name is reserved in Lean); `Percent`, `W`, `H` keep their
names. -/
structure Size where
  type : SizeType
  Percent : GoFloat
  W : Int
  H : Int
deriving DecidableEq, Repr

/-- Decimal value of a digit string, most significant digit first. -/
def digitsVal (l : List Char) : Nat :=
  l.foldl (fun a c => a * 10 + (c.toNat - 48)) 0

/-- Strip one optional leading sign character, reporting whether it was
`'-'` (as in Go `strconv`'s number scanners). -/
def splitSign : List Char → Bool × List Char
  | '-' :: rest => (true, rest)
  | '+' :: rest => (false, rest)
  | l => (false, l)

/-- The clamping `strconv.ParseInt(s, 10, 0)` performs on 64-bit platforms
when the digits exceed the `int64` range (the build targets linux/amd64):
the value returned alongside `ErrRange` is the saturated `int64`. -/
def clampInt64 (neg : Bool) (v : Nat) : Int :=
  if neg then (if 2 ^ 63 < v then -(2 ^ 63) else -(v : Int))
  else (if 2 ^ 63 ≤ v then 2 ^ 63 - 1 else (v : Int))

/-- Whether `strconv.Atoi` accepts the string: one optional sign followed
by at least one decimal digit and nothing else. -/
def goAtoiOk (l : List Char) : Bool :=
  !(splitSign l).2.isEmpty && (splitSign l).2.all Char.isDigit

/-- Model of Go 1.7 `strconv.Atoi` with the error ignored, as the call
sites in `StringToSize` do: syntax errors yield `0`, out-of-range values
are saturated to the `int64` bounds. -/
def goAtoiL (l : List Char) : Int :=
  if goAtoiOk l then clampInt64 (splitSign l).1 (digitsVal (splitSign l).2)
  else 0

/-- ASCII lower-casing, as `strconv`'s `equalIgnoreCase` applies. -/
def lowerC (c : Char) : Char :=
  if 'A' ≤ c ∧ c ≤ 'Z' then Char.ofNat (c.toNat + 32) else c

/-- Case-insensitive comparison against an (already lower-case) pattern. -/
def lowEq (l : List Char) (pat : List Char) : Bool :=
  decide (l.map lowerC = pat)

/-- Model of `strconv`'s `special`: the strings `ParseFloat` maps to the
non-finite `float64` values (Go 1.7 accepts a sign only before `inf`). -/
def special (l : List Char) : Option GoFloat :=
  match l with
  | [] => none
  | c :: rest =>
    if c = '+' then
      if lowEq rest "inf".data || lowEq rest "infinity".data then some (.inf false) else none
    else if c = '-' then
      if lowEq rest "inf".data || lowEq rest "infinity".data then some (.inf true) else none
    else if c = 'n' ∨ c = 'N' then
      if lowEq (c :: rest) "nan".data then some .nan else none
    else if c = 'i' ∨ c = 'I' then
      if lowEq (c :: rest) "inf".data || lowEq (c :: rest) "infinity".data then
        some (.inf false)
      else none
    else none

/-- The mantissa scan of `strconv`'s `decimal.set`: consume decimal digits
with at most one dot.  Returns the accumulated integer value, the number of
digits after the dot, whether any digit was seen, and the unconsumed rest;
`none` models the hard error on a second dot. -/
def scanMant : List Char → Int → Nat → Bool → Bool →
    Option (Int × Nat × Bool × List Char)
  | [], acc, frac, _, sawDig => some (acc, frac, sawDig, [])
  | c :: rest, acc, frac, sawDot, sawDig =>
    if c = '.' then
      if sawDot then none else scanMant rest acc frac true sawDig
    else if c.isDigit then
      scanMant rest (acc * 10 + ((c.toNat : Int) - 48))
        (if sawDot then frac + 1 else frac) sawDot true
    else some (acc, frac, sawDig, c :: rest)

/-- The exact rational `m * 10 ^ e`, built with a single `mkRat` so that
it evaluates by kernel reduction. -/
def decValue (m : Int) (e : Int) : ℚ :=
  mkRat (m * ((10 : Nat) ^ e.toNat : Nat)) ((10 : Nat) ^ (-e).toNat)

/-- The exponent part after `e`/`E`: optional sign then one or more
digits, consuming the whole rest of the string. -/
def parseExpPart (l : List Char) : Option Int :=
  let (neg, ds) := splitSign l
  if !ds.isEmpty && ds.all Char.isDigit then
    some (if neg then -(digitsVal ds : Int) else (digitsVal ds : Int))
  else none

/-- The finite-number grammar of Go 1.7 `strconv.ParseFloat`: optional
sign, digits with at most one dot (at least one digit), optional `e`/`E`
exponent; the whole string must be consumed.  The value is kept as an
exact rational. -/
def parseDecL (l : List Char) : Option ℚ :=
  let (neg, l1) := splitSign l
  match scanMant l1 0 0 false false with
  | none => none
  | some (acc, frac, sawDig, rest) =>
    if !sawDig then none
    else
      let eOpt : Option Int :=
        match rest with
        | [] => some 0
        | c :: r => if c = 'e' ∨ c = 'E' then parseExpPart r else none
      match eOpt with
      | none => none
      | some e =>
        some (decValue (if neg then -acc else acc) (e - (frac : Int)))

/-- Model of Go 1.7 `strconv.ParseFloat(s, 64)`: the special non-finite
strings, else the decimal grammar; `none` is a syntax error (on which the
Go function returns value `0`). -/
def parseFloatL (l : List Char) : Option GoFloat :=
  match special l with
  | some v => some v
  | none => (parseDecL l).map GoFloat.finite

/-- Go `strings.Split(p, ",")`: split at every comma; the empty string
yields `[[]]`, and the result is never empty. -/
def splitComma : List Char → List (List Char)
  | [] => [[]]
  | c :: rest =>
    if c = ',' then [] :: splitComma rest
    else
      match splitComma rest with
      | t :: ts => (c :: t) :: ts
      | [] => [[c]]

/-- The `p = p[1:]` step of `StringToSize` when the first byte is `!`. -/
def stripBang : List Char → List Char
  | [] => []
  | c :: t => if c = '!' then t else c :: t

/-- Model of `iiif.StringToSize`.  `none` models a Go run-time panic:
`p[0:1]` panics on the empty string, and `vals[1]` panics when the
(possibly `!`-stripped) string contains no comma. -/
def stringToSize (p : String) : Option Size :=
  if p = "full" then some ⟨SizeType.STFull, GoFloat.finite 0, 0, 0⟩
  else if 4 < p.data.length ∧ p.data.take 4 = "pct:".data then
    some ⟨SizeType.STScalePercent,
      (parseFloatL (p.data.drop 4)).getD (GoFloat.finite 0), 0, 0⟩
  else
    match p.data with
    | [] => none
    | c :: t =>
      let ty0 := if c = '!' then SizeType.STBestFit else SizeType.STNone
      let q := if c = '!' then t else c :: t
      match splitComma q with
      | v0 :: v1 :: _ =>
        some ⟨(if ty0 = SizeType.STNone then
                 (if v0 = [] then SizeType.STScaleToHeight
                  else if v1 = [] then SizeType.STScaleToWidth
                  else SizeType.STExact)
               else ty0),
              GoFloat.finite 0, goAtoiL v0, goAtoiL v1⟩
      | _ => none

/-- Model of `iiif.Size.Valid`, clause for clause from the Go switch
(`STNone` and any unlisted tag fall through to `false`). -/
def Size.Valid (s : Size) : Bool :=
  match s.type with
  | SizeType.STFull => true
  | SizeType.STScaleToWidth => decide (0 < s.W)
  | SizeType.STScaleToHeight => decide (0 < s.H)
  | SizeType.STScalePercent => s.Percent.gt0
  | SizeType.STExact => decide (0 < s.W) && decide (0 < s.H)
  | SizeType.STBestFit => decide (0 < s.W) && decide (0 < s.H)
  | SizeType.STNone => false

/-- The per-tag validity invariant transcribed from the specification's
words (spec section 3, Size Spec): `Full` always valid, `ScaleToWidth`
requires `w>0`, `ScaleToHeight` requires `h>0`, `ScalePercent` requires
`p>0`, `Exact`/`BestFit` require `w>0 && h>0`, every other tag invalid. -/
def sizeValidSpec (s : Size) : Bool :=
  match s.type with
  | SizeType.STFull => true
  | SizeType.STScaleToWidth => decide (0 < s.W)
  | SizeType.STScaleToHeight => decide (0 < s.H)
  | SizeType.STScalePercent => s.Percent.gt0
  | SizeType.STExact => decide (0 < s.W ∧ 0 < s.H)
  | SizeType.STBestFit => decide (0 < s.W ∧ 0 < s.H)
  | SizeType.STNone => false

/-- Index of the leftmost occurrence of `pat` in `hay` (Go
`bytes.Index`): `some i` when `pat` is a prefix of `hay.drop i` and `i`
is minimal, `none` when `pat` occurs nowhere. -/
def firstIdx (pat : List Char) : List Char → Option Nat
  | [] => if pat.isPrefixOf ([] : List Char) then some 0 else none
  | c :: t =>
    if pat.isPrefixOf (c :: t) then some 0
    else (firstIdx pat t).map (· + 1)

/-- Go `bytes.Replace(hay, pat, new, 1)` for non-empty `pat`: replace the
leftmost occurrence of `pat`, if any, leaving the rest unchanged. -/
def goReplaceOnce (hay pat new : List Char) : List Char :=
  match firstIdx pat hay with
  | none => hay
  | some i => hay.take i ++ new ++ hay.drop (i + pat.length)

/-! ## The HTTP handler (`rais-server/iiif_handler.go`)

The handler's collaborators (`NewImageResource`, `iiif.NewURL(..).Valid`,
`iiif.FeatureSet.Supported`, `ImageResource.Apply`, `EncodeImage`,
`sendHeaders`, `iiif.ID.Path`, `ioutil.ReadFile`, `json.Marshal`,
`mime.TypeByExtension`) live outside the sources under scrutiny, so their
outcomes are supplied by a `World` oracle, modelled from the spec; the
control flow that consumes them is transcribed from `iiif_handler.go`.
The handler is a pure function from the oracle and the request to the
response it writes plus the ordered trace of effectful collaborator calls
it made. -/

/-- One result of `NewImageResource`: the opened resource with the data
the handler reads from it (`ID`, `FilePath`, decoder dimensions). -/
structure ImageResource where
  id : String
  filePath : String
  width : Int
  height : Int
deriving DecidableEq, Repr

/-- Modelled from the spec: `New(identifier, path) -> Resource |
ErrImageDoesNotExist | ErrOther` (spec section 4.4). -/
inductive ImgResult where
  | ok (r : ImageResource)
  | errDoesNotExist
  | errOther (msg : String)
deriving DecidableEq, Repr

/-- Outcome of `ioutil.ReadFile` on the override document:
the bytes, a does-not-exist error, or any other read error. -/
inductive ReadResult where
  | ok (b : List Char)
  | errNotFound
  | errOther
deriving DecidableEq, Repr

/-- The fields of `iiif.Info` the handler writes (`Width`, `Height`,
`ID`); the capability payload rendered from the `FeatureSet` is opaque
to the handler and abstracted as `caps`. -/
structure InfoJSON where
  id : String
  width : Int
  height : Int
  caps : Nat
deriving DecidableEq, Repr

/-- Effectful collaborator calls the handler makes, in order. -/
inductive Eff where
  | openResource (identifier filepath : String)
  | readOverride (path : String)
  | applyCmd (path : String)
  | encodeImg
deriving DecidableEq, Repr

/-- Whether an effect is decode/transform work on pixel data. -/
def Eff.isDecodeWork : Eff → Bool
  | .applyCmd _ => true
  | .encodeImg => true
  | _ => false

/-- The response the handler writes: status, the headers it sets
(content type, `Access-Control-Allow-Origin: *`, `Location`), body. -/
structure HResp where
  status : Nat
  contentType : Option String := none
  location : Option String := none
  acao : Bool := false
  body : List Char := []
deriving DecidableEq, Repr

/-- Go `http.Error(w, msg, code)`: sets the plain-text content type and
writes the message followed by a newline. -/
def httpError (msg : String) (code : Nat) : HResp :=
  { status := code
    contentType := some "text/plain; charset=utf-8"
    body := (msg ++ "\n").data }

/-- Go `http.NotFound`. -/
def notFoundResp : HResp := httpError "404 page not found" 404

/-- `newImageResError` from `iiif_handler.go`: 404 for
`ErrImageDoesNotExist`, 500 with the error text otherwise. -/
def newImageResError : ImgResult → HResp
  | .errDoesNotExist => httpError "Image resource does not exist" 404
  | .errOther msg => httpError msg 500
  | .ok _ => httpError "" 500

/-- Oracle for the handler's collaborators.  Each field is modelled from
the spec's contract for that collaborator (sections 4.4, 6); `sendHeaders`
is the cache-validation step of the command path, `false` meaning it
short-circuited the request with a cache-validation response (e.g. 304)
before the handler's own logic ran. -/
structure World where
  newImageResource : String → String → ImgResult
  readFile : String → ReadResult
  urlValid : String → Bool
  supported : String → Bool
  format : String → String
  apply : String → ImageResource → Except String Nat
  encode : Nat → String → Except String (List Char)
  fsInfo : InfoJSON
  marshal : InfoJSON → Option (List Char)
  idPath : String → String
  sendHeadersOK : String → Bool
  mimeType : String → String

/-- The handler's configuration: `Base.String()` (the full base URL used
in descriptor IDs), `Base.Path` (the path prefix the route regexes embed
literally), and `TilePath`. -/
structure Handler where
  baseURL : String
  basePath : String
  tilePath : String

/-- `acceptsLD`: scans every `Accept` header value, splits it at commas,
and looks for a part equal to `application/ld+json` (no trimming, no
media-type parameters). -/
def acceptsLD (accept : List String) : Bool :=
  accept.any fun h => (h.splitOn ",").any fun a => a = "application/ld+json"

/-- The common core of the three route regexes `^{base}/([^/]+)`,
`^{base}/[^/]+$` and `^{base}/([^/]+)/info.json$`: if the path extends
`base ++ "/"` with a non-empty run of non-`/` characters, return that
(maximal) run -- the captured identifier -- and the remainder. -/
def splitIdent (base p : List Char) : Option (List Char × List Char) :=
  if (base ++ ['/']).isPrefixOf p then
    if (p.drop (base.length + 1)).takeWhile (fun c => c ≠ '/') = [] then none
    else some ((p.drop (base.length + 1)).takeWhile (fun c => c ≠ '/'),
               (p.drop (base.length + 1)).dropWhile (fun c => c ≠ '/'))
  else none

/-- Whether the remainder after the identifier matches the rest of
`InfoPathRegex`, i.e. `/info.json$` with the unescaped `.` matching any
character other than a newline. -/
def isInfoRest : List Char → Bool
  | ['/', 'i', 'n', 'f', 'o', c, 'j', 's', 'o', 'n'] => c ≠ '\n'
  | _ => false

/-- `loadInfoJSONOverride`: read `{filepath}-info.json`; on any read error
return `none` ("just skip it"); on success replace the first occurrence of
`%ID%` by `Base.String() + "/" + identifier` (Go `bytes.Replace` with
count 1). -/
def loadInfoJSONOverride (wd : World) (h : Handler) (identifier filepath : String) :
    Option (List Char) × List Eff :=
  match wd.readFile (filepath ++ "-info.json") with
  | .ok b =>
    (some (goReplaceOnce b "%ID%".data (h.baseURL ++ "/" ++ identifier).data),
     [.readOverride (filepath ++ "-info.json")])
  | _ => (none, [.readOverride (filepath ++ "-info.json")])

/-- The descriptor `buildInfoJSON` marshals: the Feature Set's rendered
fields with the resource's dimensions and the full resource URL filled
in. -/
def infoFor (wd : World) (h : Handler) (res : ImageResource) : InfoJSON :=
  { wd.fsInfo with width := res.width, height := res.height, id := h.baseURL ++ "/" ++ res.id }

/-- `buildInfoJSON`: open the image resource, fill in the dimensions and
the full resource URL, and marshal; on failure the response that the Go
code writes before returning the error is carried in the `Except`. -/
def buildInfoJSON (wd : World) (h : Handler) (identifier filepath : String) :
    Except HResp (List Char) × List Eff :=
  match wd.newImageResource identifier filepath with
  | .ok res =>
    (match wd.marshal (infoFor wd h res) with
     | some j => .ok j
     | none => .error (httpError "Server error" 500),
     [.openResource identifier filepath])
  | e => (.error (newImageResError e), [.openResource identifier filepath])

/-- The 200 response `Info` writes: negotiated content type,
`Access-Control-Allow-Origin: *`, and the descriptor bytes. -/
def infoSuccess (accept : List String) (j : List Char) : HResp :=
  { status := 200
    contentType := some (if acceptsLD accept then "application/ld+json" else "application/json")
    acao := true
    body := j }

/-- `IIIFHandler.Info`: override document if readable, else the generated
descriptor; on success the content type is negotiated from the `Accept`
header and `Access-Control-Allow-Origin: *` is set. -/
def infoH (wd : World) (h : Handler) (accept : List String)
    (identifier filepath : String) : HResp × List Eff :=
  match (loadInfoJSONOverride wd h identifier filepath).1 with
  | some j => (infoSuccess accept j, (loadInfoJSONOverride wd h identifier filepath).2)
  | none =>
    match (buildInfoJSON wd h identifier filepath).1 with
    | .error r =>
      (r, (loadInfoJSONOverride wd h identifier filepath).2 ++
          (buildInfoJSON wd h identifier filepath).2)
    | .ok j =>
      (infoSuccess accept j,
       (loadInfoJSONOverride wd h identifier filepath).2 ++
          (buildInfoJSON wd h identifier filepath).2)

/-- `IIIFHandler.Command`: cache-validation headers, then the feature
negotiation check (501), then `Apply` (500 on failure), then encode
(500 on failure) with the content type from the format's MIME type. -/
def commandH (wd : World) (p : String) (res : ImageResource) : HResp × List Eff :=
  if wd.sendHeadersOK res.filePath = false then ({ status := 304 }, [])
  else if wd.supported p = false then (httpError "Feature not supported" 501, [])
  else
    match wd.apply p res with
    | .error e => (httpError e 500, [.applyCmd p])
    | .ok img =>
      match wd.encode img (wd.format p) with
      | .error _ => (httpError "Unable to encode" 500, [.applyCmd p, .encodeImg])
      | .ok body =>
        ({ status := 200
           contentType := some (wd.mimeType ("." ++ wd.format p))
           body := body }, [.applyCmd p, .encodeImg])

/-- The command arm of `Route`: open the image resource (404/500 on
failure), check IIIF URL syntax (400 on failure), then run `Command`. -/
def routeCommand (wd : World) (p identifier filepath : String) : HResp × List Eff :=
  match wd.newImageResource identifier filepath with
  | .ok res =>
    if wd.urlValid p then
      ((commandH wd p res).1, .openResource identifier filepath :: (commandH wd p res).2)
    else
      (httpError "Invalid IIIF request" 400, [.openResource identifier filepath])
  | e => (newImageResError e, [.openResource identifier filepath])

/-- `IIIFHandler.Route`: 404 unless the base regex matches; 303 redirect
to `{path}/info.json` when the path is exactly base plus one identifier
segment; the info handler on an `info.json` path; otherwise the command
arm. -/
def route (wd : World) (h : Handler) (p : String) (accept : List String) :
    HResp × List Eff :=
  match splitIdent h.basePath.data p.data with
  | none => (notFoundResp, [])
  | some (identData, rest) =>
    if rest = [] then
      ({ status := 303, location := some (p ++ "/info.json") }, [])
    else if isInfoRest rest then
      infoH wd h accept (String.mk identData)
        (h.tilePath ++ "/" ++ wd.idPath (String.mk identData))
    else
      routeCommand wd p (String.mk identData)
        (h.tilePath ++ "/" ++ wd.idPath (String.mk identData))

/-! ### Concrete oracle instances used by witnesses and counterexamples -/

/-- A concrete handler configuration. -/
def hIIIF : Handler :=
  { baseURL := "http://ex.org/iiif", basePath := "/iiif", tilePath := "/tiles" }

/-- A world where every collaborator succeeds: images open at 800x600,
there is no override document, every command is syntactically valid and
supported, and decode/encode succeed. -/
def wOkAll : World where
  newImageResource := fun i fp => .ok ⟨i, fp, 800, 600⟩
  readFile := fun _ => .errNotFound
  urlValid := fun _ => true
  supported := fun _ => true
  format := fun _ => "jpg"
  apply := fun _ _ => .ok 1
  encode := fun _ _ => .ok "IMGBYTES".data
  fsInfo := ⟨"", 0, 0, 42⟩
  marshal := fun _ => some "GEN".data
  idPath := fun s => s
  sendHeadersOK := fun _ => true
  mimeType := fun _ => "image/jpeg"

/-- Like `wOkAll` but the source image does not exist. -/
def wNoImage : World :=
  { wOkAll with newImageResource := fun _ _ => .errDoesNotExist }

/-- Like `wOkAll` but every command path fails the IIIF URL grammar. -/
def wBadSyntax : World :=
  { wOkAll with urlValid := fun _ => false }

/-- Like `wOkAll` but the feature set supports no command. -/
def wUnsupported : World :=
  { wOkAll with supported := fun _ => false }

/-- Like `wOkAll` but `Apply` fails. -/
def wApplyFail : World :=
  { wOkAll with apply := fun _ _ => .error "decode failure" }

/-- Like `wOkAll` but encoding fails. -/
def wEncodeFail : World :=
  { wOkAll with encode := fun _ _ => .error "encode failure" }

/-- Like `wOkAll` but an override document is present and readable. -/
def wOverrideOk : World :=
  { wOkAll with readFile := fun _ => .ok "A %ID% B".data }

/-- Like `wOkAll` but the override document exists and is unreadable
(a read error other than not-found). -/
def wOverrideBad : World :=
  { wOkAll with readFile := fun _ => .errOther }

/-- Like `wOkAll` but marshalling the descriptor fails. -/
def wMarshalFail : World :=
  { wOkAll with marshal := fun _ => none }

/-- Like `wOkAll` but the image resource fails with a non-not-found
error. -/
def wResOther : World :=
  { wOkAll with newImageResource := fun _ _ => .errOther "permission denied" }

/-! ## General lemmas about the embedded operations -/

theorem data_append (s t : String) : (s ++ t).data = s.data ++ t.data := by
  cases s; cases t; rfl

theorem str_eq_iff_data {s t : String} : s = t ↔ s.data = t.data := by
  cases s; cases t
  exact ⟨fun h => by cases h; rfl, fun h => by cases h; rfl⟩

theorem splitComma_ne_nil (l : List Char) : splitComma l ≠ [] := by
  induction l with
  | nil => simp [splitComma]
  | cons c t ih =>
    by_cases hc : c = ','
    · simp [splitComma, hc]
    · cases h : splitComma t with
      | nil => exact absurd h ih
      | cons a b => simp [splitComma, hc, h]

theorem two_le_splitComma_iff (l : List Char) :
    2 ≤ (splitComma l).length ↔ ',' ∈ l := by
  induction l with
  | nil => simp [splitComma]
  | cons c t ih =>
    by_cases hc : c = ','
    · subst hc
      cases h : splitComma t with
      | nil => exact absurd h (splitComma_ne_nil t)
      | cons a b => simp [splitComma, h]
    · cases h : splitComma t with
      | nil => exact absurd h (splitComma_ne_nil t)
      | cons a b =>
        have ih' : 2 ≤ b.length + 1 ↔ ',' ∈ t := by
          rw [h] at ih; simpa using ih
        simp only [splitComma, if_neg hc, h, List.length_cons, List.mem_cons]
        rw [ih']
        constructor
        · exact fun hh => Or.inr hh
        · rintro (hh | hh)
          · exact absurd hh.symm hc
          · exact hh

theorem goAtoiL_of_bad {l : List Char} (h : goAtoiOk l = false) : goAtoiL l = 0 := by
  simp [goAtoiL, h]

theorem takeWhile_all {l : List Char} (h : ∀ c ∈ l, c ≠ '/') :
    l.takeWhile (fun c => c ≠ '/') = l := by
  induction l with
  | nil => rfl
  | cons c t ih =>
    have hc : c ≠ '/' := h c (by simp)
    simp only [List.takeWhile_cons]
    rw [if_pos (by simpa using hc)]
    rw [ih (fun x hx => h x (by simp [hx]))]

theorem dropWhile_all {l : List Char} (h : ∀ c ∈ l, c ≠ '/') :
    l.dropWhile (fun c => c ≠ '/') = [] := by
  induction l with
  | nil => rfl
  | cons c t ih =>
    have hc : c ≠ '/' := h c (by simp)
    simp only [List.dropWhile_cons]
    rw [if_pos (by simpa using hc)]
    exact ih (fun x hx => h x (by simp [hx]))

theorem isPrefixOf_append (a b : List Char) : a.isPrefixOf (a ++ b) = true := by
  induction a with
  | nil => cases b <;> rfl
  | cons c t ih => simp [List.isPrefixOf, ih]

theorem firstIdx_none_f {pat hay : List Char} (h : firstIdx pat hay = none) :
    ∀ i, pat.isPrefixOf (hay.drop i) = false := by
  induction hay with
  | nil =>
    intro i
    rw [firstIdx] at h
    by_cases hp : pat.isPrefixOf ([] : List Char) = true
    · rw [if_pos hp] at h; cases h
    · rw [List.drop_nil]; exact Bool.not_eq_true _ ▸ hp
  | cons c t ih =>
    intro i
    rw [firstIdx] at h
    by_cases hp : pat.isPrefixOf (c :: t) = true
    · rw [if_pos hp] at h; cases h
    · rw [if_neg hp] at h
      have h' : firstIdx pat t = none := by
        cases hft : firstIdx pat t with
        | none => rfl
        | some j => rw [hft] at h; simp at h
      cases i with
      | zero => simpa using Bool.not_eq_true _ ▸ hp
      | succ j => rw [List.drop_succ_cons]; exact ih h' j

theorem firstIdx_some_f {pat hay : List Char} {i : Nat}
    (h : firstIdx pat hay = some i) :
    pat.isPrefixOf (hay.drop i) = true ∧
      ∀ j, j < i → pat.isPrefixOf (hay.drop j) = false := by
  induction hay generalizing i with
  | nil =>
    rw [firstIdx] at h
    by_cases hp : pat.isPrefixOf ([] : List Char) = true
    · rw [if_pos hp] at h
      injection h with h
      subst h
      exact ⟨by simpa using hp, fun j hj => absurd hj (by omega)⟩
    · rw [if_neg hp] at h; cases h
  | cons c t ih =>
    rw [firstIdx] at h
    by_cases hp : pat.isPrefixOf (c :: t) = true
    · rw [if_pos hp] at h
      injection h with h
      subst h
      exact ⟨by simpa using hp, fun j hj => absurd hj (by omega)⟩
    · rw [if_neg hp] at h
      cases hft : firstIdx pat t with
      | none => rw [hft] at h; simp at h
      | some j =>
        rw [hft] at h
        simp only [Option.map_some'] at h
        injection h with h
        subst h
        obtain ⟨h1, h2⟩ := ih hft
        refine ⟨by simpa [List.drop_succ_cons] using h1, ?_⟩
        intro k hk
        cases k with
        | zero => simpa using Bool.not_eq_true _ ▸ hp
        | succ m => rw [List.drop_succ_cons]; exact h2 m (by omega)

theorem firstIdx_eq_none_of {pat hay : List Char}
    (h : ∀ i, pat.isPrefixOf (hay.drop i) = false) : firstIdx pat hay = none := by
  cases hft : firstIdx pat hay with
  | none => rfl
  | some i =>
    have := (firstIdx_some_f hft).1
    rw [h i] at this
    cases this

theorem firstIdx_eq_some_of {pat hay : List Char} {i : Nat}
    (h1 : pat.isPrefixOf (hay.drop i) = true)
    (h2 : ∀ j, j < i → pat.isPrefixOf (hay.drop j) = false) :
    firstIdx pat hay = some i := by
  cases hft : firstIdx pat hay with
  | none =>
    have := firstIdx_none_f hft i
    rw [h1] at this
    cases this
  | some k =>
    obtain ⟨hk1, hk2⟩ := firstIdx_some_f hft
    rcases Nat.lt_trichotomy i k with hik | hik | hik
    · have := hk2 i hik
      rw [h1] at this
      cases this
    · rw [hik]
    · have := h2 k hik
      rw [hk1] at this
      cases this

/-! ## Lemmas about `stringToSize`'s branches -/

theorem stringToSize_pct (rest : String) (hr : rest ≠ "") :
    stringToSize ("pct:" ++ rest) =
      some ⟨SizeType.STScalePercent,
        (parseFloatL rest.data).getD (GoFloat.finite 0), 0, 0⟩ := by
  obtain ⟨rl⟩ := rest
  have hr' : rl ≠ [] := fun h => hr (str_eq_iff_data.mpr h)
  have hd : ("pct:" ++ String.mk rl).data = 'p' :: 'c' :: 't' :: ':' :: rl := by
    rw [data_append]; rfl
  have h1 : ("pct:" ++ String.mk rl) ≠ "full" := by
    intro h
    have h' := str_eq_iff_data.mp h
    rw [hd] at h'
    have : ("full" : String).data = ['f', 'u', 'l', 'l'] := rfl
    rw [this] at h'
    simp at h'
  have h2 : 4 < ("pct:" ++ String.mk rl).data.length ∧
      ("pct:" ++ String.mk rl).data.take 4 = "pct:".data := by
    rw [hd]
    refine ⟨?_, rfl⟩
    have := List.length_pos.mpr hr'
    simp only [List.length_cons]
    omega
  rw [stringToSize, if_neg h1, if_pos h2, hd]
  rfl

theorem stringToSize_comma {p : String} {c : Char} {t : List Char}
    (hd : p.data = c :: t) (hful : p ≠ "full")
    (hpct : ¬(4 < p.data.length ∧ p.data.take 4 = "pct:".data))
    {v0 v1 : List Char} {vs : List (List Char)}
    (hq : splitComma (if c = '!' then t else c :: t) = v0 :: v1 :: vs) :
    stringToSize p =
      some ⟨(if c = '!' then SizeType.STBestFit
             else if v0 = [] then SizeType.STScaleToHeight
             else if v1 = [] then SizeType.STScaleToWidth
             else SizeType.STExact),
            GoFloat.finite 0, goAtoiL v0, goAtoiL v1⟩ := by
  rw [stringToSize, if_neg hful, if_neg hpct, hd]
  by_cases hc : c = '!'
  · rw [if_pos hc] at hq
    subst hc
    simp [hq]
  · rw [if_neg hc] at hq
    simp [hq, hc]

theorem stringToSize_none {p : String}
    (hful : p ≠ "full")
    (hpct : ¬(4 < p.data.length ∧ p.data.take 4 = "pct:".data))
    (hcm : ¬ (',' ∈ stripBang p.data)) :
    stringToSize p = none := by
  rw [stringToSize, if_neg hful, if_neg hpct]
  cases hd : p.data with
  | nil => rfl
  | cons c t =>
    have hsb : stripBang p.data = if c = '!' then t else c :: t := by
      rw [hd, stripBang]
    rw [hsb] at hcm
    have hlen : ¬ 2 ≤ (splitComma (if c = '!' then t else c :: t)).length := by
      rw [two_le_splitComma_iff]
      exact hcm
    cases hq : splitComma (if c = '!' then t else c :: t) with
    | nil => exact absurd hq (splitComma_ne_nil _)
    | cons v0 rest =>
      cases rest with
      | nil => simp [hq]
      | cons v1 vs =>
        rw [hq] at hlen
        simp at hlen

/-! ## Claim theorems: the Size spec parser -/

/-- C1: `StringToSize` follows the parsing contract: `"full"` yields
`STFull`; `"pct:<float>"` (length > 4) yields `STScalePercent` with the
parsed float; a leading `!` yields `STBestFit` and is stripped before the
rest is parsed as a `w,h` pair; for a `w,h` pair an empty `w` token
yields `STScaleToHeight`, an empty `h` token yields `STScaleToWidth`,
and both tokens present yields `STExact`; with `"pct:50"`, `"150,"`,
`",150"`, `"150,75"` and `"!150,75"` as concrete instances. -/
theorem C1_stringToSize_contract :
    (stringToSize "full" = some ⟨SizeType.STFull, GoFloat.finite 0, 0, 0⟩)
    ∧ (∀ rest : String, rest ≠ "" →
        stringToSize ("pct:" ++ rest) =
          some ⟨SizeType.STScalePercent,
            (parseFloatL rest.data).getD (GoFloat.finite 0), 0, 0⟩)
    ∧ (∀ t : String, ∀ v0 v1 vs, splitComma t.data = v0 :: v1 :: vs →
        stringToSize ("!" ++ t) =
          some ⟨SizeType.STBestFit, GoFloat.finite 0, goAtoiL v0, goAtoiL v1⟩)
    ∧ (∀ p : String, ∀ v1 vs, p ≠ "full" →
        ¬(4 < p.data.length ∧ p.data.take 4 = "pct:".data) →
        p.data.head? ≠ some '!' →
        splitComma p.data = [] :: v1 :: vs →
        stringToSize p =
          some ⟨SizeType.STScaleToHeight, GoFloat.finite 0, 0, goAtoiL v1⟩)
    ∧ (∀ p : String, ∀ v0 vs, p ≠ "full" →
        ¬(4 < p.data.length ∧ p.data.take 4 = "pct:".data) →
        p.data.head? ≠ some '!' →
        splitComma p.data = v0 :: [] :: vs → v0 ≠ [] →
        stringToSize p =
          some ⟨SizeType.STScaleToWidth, GoFloat.finite 0, goAtoiL v0, 0⟩)
    ∧ (∀ p : String, ∀ v0 v1 vs, p ≠ "full" →
        ¬(4 < p.data.length ∧ p.data.take 4 = "pct:".data) →
        p.data.head? ≠ some '!' →
        splitComma p.data = v0 :: v1 :: vs → v0 ≠ [] → v1 ≠ [] →
        stringToSize p =
          some ⟨SizeType.STExact, GoFloat.finite 0, goAtoiL v0, goAtoiL v1⟩)
    ∧ stringToSize "pct:50" = some ⟨SizeType.STScalePercent, GoFloat.finite 50, 0, 0⟩
    ∧ stringToSize "150," = some ⟨SizeType.STScaleToWidth, GoFloat.finite 0, 150, 0⟩
    ∧ stringToSize ",150" = some ⟨SizeType.STScaleToHeight, GoFloat.finite 0, 0, 150⟩
    ∧ stringToSize "150,75" = some ⟨SizeType.STExact, GoFloat.finite 0, 150, 75⟩
    ∧ stringToSize "!150,75" = some ⟨SizeType.STBestFit, GoFloat.finite 0, 150, 75⟩ := by
  refine ⟨by decide, stringToSize_pct, ?_, ?_, ?_, ?_,
    by decide, by decide, by decide, by decide, by decide⟩
  · intro t v0 v1 vs hq
    obtain ⟨tl⟩ := t
    have hd : ("!" ++ String.mk tl).data = '!' :: tl := by
      rw [data_append]; rfl
    have hful : ("!" ++ String.mk tl) ≠ "full" := by
      intro h
      have h' := str_eq_iff_data.mp h
      rw [hd] at h'
      have : ("full" : String).data = ['f', 'u', 'l', 'l'] := rfl
      rw [this] at h'
      simp at h'
    have hpct : ¬(4 < ("!" ++ String.mk tl).data.length ∧
        ("!" ++ String.mk tl).data.take 4 = "pct:".data) := by
      rw [hd]
      rintro ⟨hlen, htake⟩
      have : 3 < tl.length := by
        simp only [List.length_cons] at hlen
        omega
      cases tl with
      | nil => simp at this
      | cons a b =>
        have : ('!' :: a :: b).take 4 = '!' :: (a :: b).take 3 := rfl
        rw [this] at htake
        have : ("pct:" : String).data = ['p', 'c', 't', ':'] := rfl
        rw [this] at htake
        simp at htake
    have hq2 : splitComma (if '!' = '!' then tl else '!' :: tl) = v0 :: v1 :: vs := by
      rw [if_pos rfl]; exact hq
    have := stringToSize_comma hd hful hpct hq2
    rw [this]
    simp
  · intro p v1 vs hful hpct hhd hq
    cases hd : p.data with
    | nil => rw [hd] at hq; simp [splitComma] at hq
    | cons c t =>
      have hc : c ≠ '!' := by
        rw [hd] at hhd
        simpa using hhd
      rw [hd] at hq
      have hq2 : splitComma (if c = '!' then t else c :: t) = [] :: v1 :: vs := by
        rw [if_neg hc]; exact hq
      have := stringToSize_comma hd hful hpct hq2
      rw [this]
      simp [hc]
      decide
  · intro p v0 vs hful hpct hhd hq hv0
    cases hd : p.data with
    | nil => rw [hd] at hq; simp [splitComma] at hq
    | cons c t =>
      have hc : c ≠ '!' := by
        rw [hd] at hhd
        simpa using hhd
      rw [hd] at hq
      have hq2 : splitComma (if c = '!' then t else c :: t) = v0 :: [] :: vs := by
        rw [if_neg hc]; exact hq
      have := stringToSize_comma hd hful hpct hq2
      rw [this]
      simp [hc, hv0]
      rfl
  · intro p v0 v1 vs hful hpct hhd hq hv0 hv1
    cases hd : p.data with
    | nil => rw [hd] at hq; simp [splitComma] at hq
    | cons c t =>
      have hc : c ≠ '!' := by
        rw [hd] at hhd
        simpa using hhd
      rw [hd] at hq
      have hq2 : splitComma (if c = '!' then t else c :: t) = v0 :: v1 :: vs := by
        rw [if_neg hc]; exact hq
      have := stringToSize_comma hd hful hpct hq2
      rw [this]
      simp [hc, hv0, hv1]

/-- Witness for C1: the `pct:` clause applied at the concrete remainder
`"50"`. -/
theorem C1_witness :
    stringToSize ("pct:" ++ "50") =
      some ⟨SizeType.STScalePercent,
        (parseFloatL "50".data).getD (GoFloat.finite 0), 0, 0⟩ :=
  C1_stringToSize_contract.2.1 "50" (by decide)

/-- C2: `Size.Valid` implements exactly the per-tag invariant of the
spec (`Full` always valid; `ScaleToWidth` iff `W > 0`; `ScaleToHeight`
iff `H > 0`; `ScalePercent` iff `Percent > 0`; `Exact`/`BestFit` iff
`W > 0 && H > 0`; false for every other tag, in particular `STNone`),
and is false for `ScaleToWidth{0}`, `ScalePercent{0}`, `Exact{150,0}`. -/
theorem C2_valid_invariant :
    (∀ s : Size, s.Valid = sizeValidSpec s)
    ∧ Size.Valid ⟨SizeType.STScaleToWidth, GoFloat.finite 0, 0, 0⟩ = false
    ∧ Size.Valid ⟨SizeType.STScalePercent, GoFloat.finite 0, 0, 0⟩ = false
    ∧ Size.Valid ⟨SizeType.STExact, GoFloat.finite 0, 150, 0⟩ = false
    ∧ (∀ pc w h, Size.Valid ⟨SizeType.STFull, pc, w, h⟩ = true)
    ∧ (∀ pc w h, Size.Valid ⟨SizeType.STScaleToWidth, pc, w, h⟩ = decide (0 < w))
    ∧ (∀ pc w h, Size.Valid ⟨SizeType.STScaleToHeight, pc, w, h⟩ = decide (0 < h))
    ∧ (∀ pc w h, Size.Valid ⟨SizeType.STScalePercent, pc, w, h⟩ = pc.gt0)
    ∧ (∀ pc w h, Size.Valid ⟨SizeType.STExact, pc, w, h⟩ = decide (0 < w ∧ 0 < h))
    ∧ (∀ pc w h, Size.Valid ⟨SizeType.STBestFit, pc, w, h⟩ = decide (0 < w ∧ 0 < h))
    ∧ (∀ pc w h, Size.Valid ⟨SizeType.STNone, pc, w, h⟩ = false) := by
  refine ⟨?_, by decide, by decide, by decide, fun _ _ _ => rfl, fun _ _ _ => rfl,
    fun _ _ _ => rfl, fun _ _ _ => rfl, ?_, ?_, fun _ _ _ => rfl⟩
  · intro s
    obtain ⟨ty, pc, w, h⟩ := s
    cases ty <;> simp [Size.Valid, sizeValidSpec]
  · intro pc w h
    simp [Size.Valid]
  · intro pc w h
    simp [Size.Valid]

/-- C3 (amended): `stringToSize` is deterministic (it is a function of
its input), but it is not total: it panics (modelled `none`) exactly
outside this domain: the literal `"full"`, a `"pct:"`-prefixed string of
length at least 5, or a string whose `!`-stripped form contains a
comma.  In particular it panics on `""` and on comma-free strings such
as `"150"`. -/
theorem C3_totality_domain (p : String) :
    (stringToSize p).isSome = true ↔
      p = "full" ∨ (4 < p.data.length ∧ p.data.take 4 = "pct:".data) ∨
        ',' ∈ stripBang p.data := by
  by_cases hf : p = "full"
  · simp [stringToSize, hf]
  · by_cases hp : 4 < p.data.length ∧ p.data.take 4 = "pct:".data
    · rw [stringToSize, if_neg hf, if_pos hp]
      exact iff_of_true rfl (Or.inr (Or.inl hp))
    · by_cases hcm : ',' ∈ stripBang p.data
      · simp only [hf, hp, hcm, or_true, iff_true, false_or]
        cases hd : p.data with
        | nil => rw [hd] at hcm; simp [stripBang] at hcm
        | cons c t =>
          have hsb : stripBang p.data = if c = '!' then t else c :: t := by
            rw [hd, stripBang]
          rw [hsb] at hcm
          have hlen : 2 ≤ (splitComma (if c = '!' then t else c :: t)).length :=
            (two_le_splitComma_iff _).mpr hcm
          cases hq : splitComma (if c = '!' then t else c :: t) with
          | nil => exact absurd hq (splitComma_ne_nil _)
          | cons v0 rest =>
            cases rest with
            | nil => rw [hq] at hlen; simp at hlen
            | cons v1 vs =>
              rw [stringToSize_comma hd hf hp hq]
              rfl
      · have hnot : ¬(p = "full" ∨ (4 < p.data.length ∧ p.data.take 4 = "pct:".data) ∨
            ',' ∈ stripBang p.data) := by
          rintro (h | h | h)
          exacts [hf h, hp h, hcm h]
        exact iff_of_false (by rw [stringToSize_none hf hp hcm]; simp) hnot

/-- Counterexample to C3 as stated: `StringToSize` is not total — the Go
code panics (slice out of range, modelled `none`) on the empty string and
on the comma-free string `"150"`. -/
theorem C3_counterexample : stringToSize "" = none ∧ stringToSize "150" = none := by
  decide

/-- C9: a malformed numeric payload never yields a `Valid` size: a
`"pct:"` string whose remainder fails `ParseFloat` leaves `Percent` at 0
and the result invalid; a `w,h` input whose non-empty `w` or `h` token
fails `Atoi` leaves that field at 0 and the result invalid. -/
theorem C9_malformed_numeric_invalid :
    (∀ rest : String, rest ≠ "" → parseFloatL rest.data = none →
      stringToSize ("pct:" ++ rest) =
        some ⟨SizeType.STScalePercent, GoFloat.finite 0, 0, 0⟩ ∧
      Size.Valid ⟨SizeType.STScalePercent, GoFloat.finite 0, 0, 0⟩ = false)
    ∧ (∀ p : String, ∀ v0 v1 vs, p ≠ "full" →
        ¬(4 < p.data.length ∧ p.data.take 4 = "pct:".data) →
        splitComma (stripBang p.data) = v0 :: v1 :: vs →
        ((v0 ≠ [] ∧ goAtoiOk v0 = false) ∨ (v1 ≠ [] ∧ goAtoiOk v1 = false)) →
        ∃ s, stringToSize p = some s ∧ s.Valid = false ∧
          (goAtoiOk v0 = false → s.W = 0) ∧ (goAtoiOk v1 = false → s.H = 0)) := by
  constructor
  · intro rest hr hpf
    rw [stringToSize_pct rest hr, hpf]
    exact ⟨rfl, rfl⟩
  · intro p v0 v1 vs hful hpct hq hbad
    cases hd : p.data with
    | nil => rw [hd] at hq; simp [stripBang, splitComma] at hq
    | cons c t =>
      have hsb : stripBang p.data = if c = '!' then t else c :: t := by
        rw [hd, stripBang]
      rw [hsb] at hq
      refine ⟨_, stringToSize_comma hd hful hpct hq, ?_, ?_, ?_⟩
      · rcases hbad with ⟨hv0, hbad0⟩ | ⟨hv1, hbad1⟩
        · rw [goAtoiL_of_bad hbad0]
          by_cases hc : c = '!'
          · simp [Size.Valid, hc]
          · simp [Size.Valid, hc, hv0]
            by_cases hv1e : v1 = [] <;> simp [hv1e]
        · rw [goAtoiL_of_bad hbad1]
          by_cases hc : c = '!'
          · simp [Size.Valid, hc]
          · by_cases hv0e : v0 = []
            · simp [Size.Valid, hc, hv0e]
            · simp [Size.Valid, hc, hv0e, hv1]
      · intro hbad0
        simpa using goAtoiL_of_bad hbad0
      · intro hbad1
        simpa using goAtoiL_of_bad hbad1

/-- Witness for C9: the float clause at `"pct:x"` and the integer clause
at `"abc,5"`. -/
theorem C9_witness :
    (stringToSize ("pct:" ++ "x") =
        some ⟨SizeType.STScalePercent, GoFloat.finite 0, 0, 0⟩ ∧
      Size.Valid ⟨SizeType.STScalePercent, GoFloat.finite 0, 0, 0⟩ = false)
    ∧ (∃ s, stringToSize "abc,5" = some s ∧ s.Valid = false ∧
        (goAtoiOk "abc".data = false → s.W = 0) ∧
        (goAtoiOk "5".data = false → s.H = 0)) :=
  ⟨C9_malformed_numeric_invalid.1 "x" (by decide) (by decide),
   C9_malformed_numeric_invalid.2 "abc,5" "abc".data "5".data [] (by decide)
     (by decide) (by decide) (Or.inl ⟨by decide, by decide⟩)⟩

/-! ## Lemmas about the route decomposition -/

theorem splitIdent_base_only (base seg : List Char) (hseg : seg ≠ [])
    (hns : ∀ c ∈ seg, c ≠ '/') :
    splitIdent base (base ++ '/' :: seg) = some (seg, []) := by
  have hsplit : base ++ '/' :: seg = (base ++ ['/']) ++ seg := by simp
  have hpre : (base ++ ['/']).isPrefixOf (base ++ '/' :: seg) = true := by
    rw [hsplit]; exact isPrefixOf_append _ _
  have hdrop : (base ++ '/' :: seg).drop (base.length + 1) = seg := by
    rw [hsplit]
    have hlen : (base ++ ['/']).length = base.length + 1 := by simp
    rw [← hlen, List.drop_left]
  rw [splitIdent, if_pos hpre, hdrop, takeWhile_all hns, dropWhile_all hns, if_neg hseg]

theorem isInfoRest_ne_nil {rest : List Char} (h : isInfoRest rest = true) :
    rest ≠ [] := by
  intro hr
  rw [hr] at h
  simp [isInfoRest] at h

theorem route_cmd_branch {wd : World} {h : Handler} {p : String}
    {acc : List String} {identData rest : List Char}
    (hs : splitIdent h.basePath.data p.data = some (identData, rest))
    (hr : rest ≠ []) (hi : isInfoRest rest = false) :
    route wd h p acc =
      routeCommand wd p (String.mk identData)
        (h.tilePath ++ "/" ++ wd.idPath (String.mk identData)) := by
  rw [route, hs]
  simp [hr, hi]

theorem route_info_branch {wd : World} {h : Handler} {p : String}
    {acc : List String} {identData rest : List Char}
    (hs : splitIdent h.basePath.data p.data = some (identData, rest))
    (hi : isInfoRest rest = true) :
    route wd h p acc =
      infoH wd h acc (String.mk identData)
        (h.tilePath ++ "/" ++ wd.idPath (String.mk identData)) := by
  rw [route, hs]
  simp [isInfoRest_ne_nil hi, hi]

/-! ## Claim theorems: the HTTP handler -/

/-- C10: when the request path is exactly the base path plus a single
identifier segment, `Route` answers 303 with `Location: {path}/info.json`
and performs no effectful collaborator call at all — in particular the
source file is never opened or checked, whatever the oracle would answer
(so the redirect is issued even for identifiers that do not resolve). -/
theorem C10_base_redirect (wd : World) (h : Handler) (acc : List String)
    (seg : List Char) (hseg : seg ≠ []) (hns : ∀ c ∈ seg, c ≠ '/') :
    route wd h (String.mk (h.basePath.data ++ '/' :: seg)) acc =
      ({ status := 303,
         location := some (String.mk (h.basePath.data ++ '/' :: seg) ++ "/info.json") },
       []) := by
  have hs : splitIdent h.basePath.data (String.mk (h.basePath.data ++ '/' :: seg)).data =
      some (seg, []) := splitIdent_base_only _ _ hseg hns
  rw [route, hs]
  rfl

/-- Witness for C10: the redirect at `{base}/abc` in a world where the
image does not exist: still 303, never 404, with an empty trace. -/
theorem C10_witness :
    route wNoImage hIIIF (String.mk (hIIIF.basePath.data ++ '/' :: "abc".data)) [] =
      ({ status := 303,
         location := some (String.mk (hIIIF.basePath.data ++ '/' :: "abc".data) ++ "/info.json") },
       []) :=
  C10_base_redirect wNoImage hIIIF [] "abc".data (by decide) (by decide)

/-- C4: the HTTP status mapping of `Route`/`Command`: a missing source
image (`ErrImageDoesNotExist` from `NewImageResource`, on the command
path or under `buildInfoJSON`) yields 404; a path that reaches command
handling but fails the IIIF URL grammar check yields 400; a
syntactically valid command whose features are not supported yields 501
(provided the cache-validation step did not short-circuit the request);
and a failure of `Apply` or of encoding yields 500. -/
theorem C4_status_mapping :
    (∀ (wd : World) (h : Handler) (p : String) (acc : List String)
        (identData rest : List Char),
      splitIdent h.basePath.data p.data = some (identData, rest) →
      rest ≠ [] → isInfoRest rest = false →
      wd.newImageResource (String.mk identData)
          (h.tilePath ++ "/" ++ wd.idPath (String.mk identData)) = .errDoesNotExist →
      (route wd h p acc).1 = httpError "Image resource does not exist" 404)
    ∧ (∀ (wd : World) (h : Handler) (p : String) (acc : List String)
        (identData rest : List Char),
      splitIdent h.basePath.data p.data = some (identData, rest) →
      isInfoRest rest = true →
      (wd.readFile (h.tilePath ++ "/" ++ wd.idPath (String.mk identData) ++ "-info.json") =
          .errNotFound ∨
        wd.readFile (h.tilePath ++ "/" ++ wd.idPath (String.mk identData) ++ "-info.json") =
          .errOther) →
      wd.newImageResource (String.mk identData)
          (h.tilePath ++ "/" ++ wd.idPath (String.mk identData)) = .errDoesNotExist →
      (route wd h p acc).1 = httpError "Image resource does not exist" 404)
    ∧ (∀ (wd : World) (h : Handler) (p : String) (acc : List String)
        (identData rest : List Char) (res : ImageResource),
      splitIdent h.basePath.data p.data = some (identData, rest) →
      rest ≠ [] → isInfoRest rest = false →
      wd.newImageResource (String.mk identData)
          (h.tilePath ++ "/" ++ wd.idPath (String.mk identData)) = .ok res →
      wd.urlValid p = false →
      (route wd h p acc).1 = httpError "Invalid IIIF request" 400)
    ∧ (∀ (wd : World) (h : Handler) (p : String) (acc : List String)
        (identData rest : List Char) (res : ImageResource),
      splitIdent h.basePath.data p.data = some (identData, rest) →
      rest ≠ [] → isInfoRest rest = false →
      wd.newImageResource (String.mk identData)
          (h.tilePath ++ "/" ++ wd.idPath (String.mk identData)) = .ok res →
      wd.urlValid p = true → wd.sendHeadersOK res.filePath = true →
      wd.supported p = false →
      (route wd h p acc).1 = httpError "Feature not supported" 501)
    ∧ (∀ (wd : World) (h : Handler) (p : String) (acc : List String)
        (identData rest : List Char) (res : ImageResource) (msg : String),
      splitIdent h.basePath.data p.data = some (identData, rest) →
      rest ≠ [] → isInfoRest rest = false →
      wd.newImageResource (String.mk identData)
          (h.tilePath ++ "/" ++ wd.idPath (String.mk identData)) = .ok res →
      wd.urlValid p = true → wd.sendHeadersOK res.filePath = true →
      wd.supported p = true → wd.apply p res = .error msg →
      (route wd h p acc).1 = httpError msg 500)
    ∧ (∀ (wd : World) (h : Handler) (p : String) (acc : List String)
        (identData rest : List Char) (res : ImageResource) (img : Nat) (msg : String),
      splitIdent h.basePath.data p.data = some (identData, rest) →
      rest ≠ [] → isInfoRest rest = false →
      wd.newImageResource (String.mk identData)
          (h.tilePath ++ "/" ++ wd.idPath (String.mk identData)) = .ok res →
      wd.urlValid p = true → wd.sendHeadersOK res.filePath = true →
      wd.supported p = true → wd.apply p res = .ok img →
      wd.encode img (wd.format p) = .error msg →
      (route wd h p acc).1 = httpError "Unable to encode" 500) := by
  refine ⟨?_, ?_, ?_, ?_, ?_, ?_⟩
  · intro wd h p acc identData rest hs hr hi himg
    rw [route_cmd_branch hs hr hi]
    simp [routeCommand, himg, newImageResError]
  · intro wd h p acc identData rest hs hi hread himg
    rw [route_info_branch hs hi]
    rcases hread with hread | hread <;>
      simp [infoH, loadInfoJSONOverride, hread, buildInfoJSON, himg, newImageResError]
  · intro wd h p acc identData rest res hs hr hi himg hvalid
    rw [route_cmd_branch hs hr hi]
    simp [routeCommand, himg, hvalid]
  · intro wd h p acc identData rest res hs hr hi himg hvalid hsh hsupp
    rw [route_cmd_branch hs hr hi]
    simp [routeCommand, himg, hvalid, commandH, hsh, hsupp]
  · intro wd h p acc identData rest res msg hs hr hi himg hvalid hsh hsupp happly
    rw [route_cmd_branch hs hr hi]
    simp [routeCommand, himg, hvalid, commandH, hsh, hsupp, happly]
  · intro wd h p acc identData rest res img msg hs hr hi himg hvalid hsh hsupp happly henc
    rw [route_cmd_branch hs hr hi]
    simp [routeCommand, himg, hvalid, commandH, hsh, hsupp, happly, henc]

/-- Witness for C4: each status clause applied at a concrete world and
path. -/
theorem C4_witness :
    (route wNoImage hIIIF "/iiif/img/x" []).1 =
        httpError "Image resource does not exist" 404
    ∧ (route wNoImage hIIIF "/iiif/abc/info.json" []).1 =
        httpError "Image resource does not exist" 404
    ∧ (route wBadSyntax hIIIF "/iiif/img/x" []).1 =
        httpError "Invalid IIIF request" 400
    ∧ (route wUnsupported hIIIF "/iiif/img/x" []).1 =
        httpError "Feature not supported" 501
    ∧ (route wApplyFail hIIIF "/iiif/img/x" []).1 = httpError "decode failure" 500
    ∧ (route wEncodeFail hIIIF "/iiif/img/x" []).1 =
        httpError "Unable to encode" 500 :=
  ⟨C4_status_mapping.1 wNoImage hIIIF "/iiif/img/x" [] "img".data "/x".data
      (by decide) (by decide) (by decide) (by decide),
   C4_status_mapping.2.1 wNoImage hIIIF "/iiif/abc/info.json" [] "abc".data
      "/info.json".data (by decide) (by decide) (Or.inl (by decide)) (by decide),
   C4_status_mapping.2.2.1 wBadSyntax hIIIF "/iiif/img/x" [] "img".data "/x".data
      ⟨"img", "/tiles/img", 800, 600⟩ (by decide) (by decide) (by decide)
      (by decide) (by decide),
   C4_status_mapping.2.2.2.1 wUnsupported hIIIF "/iiif/img/x" [] "img".data
      "/x".data ⟨"img", "/tiles/img", 800, 600⟩ (by decide) (by decide) (by decide)
      (by decide) (by decide) (by decide) (by decide),
   C4_status_mapping.2.2.2.2.1 wApplyFail hIIIF "/iiif/img/x" [] "img".data
      "/x".data ⟨"img", "/tiles/img", 800, 600⟩ "decode failure" (by decide)
      (by decide) (by decide) (by decide) (by decide) (by decide) (by decide)
      rfl,
   C4_status_mapping.2.2.2.2.2 wEncodeFail hIIIF "/iiif/img/x" [] "img".data
      "/x".data ⟨"img", "/tiles/img", 800, 600⟩ 1 "encode failure" (by decide)
      (by decide) (by decide) (by decide) (by decide) (by decide) (by decide)
      rfl rfl⟩

theorem loadOverride_trace (wd : World) (h : Handler) (i fp : String) :
    (loadInfoJSONOverride wd h i fp).2 = [.readOverride (fp ++ "-info.json")] := by
  rw [loadInfoJSONOverride]
  cases wd.readFile (fp ++ "-info.json") <;> rfl

theorem buildInfo_trace (wd : World) (h : Handler) (i fp : String) :
    (buildInfoJSON wd h i fp).2 = [.openResource i fp] := by
  rw [buildInfoJSON]
  cases wd.newImageResource i fp <;> rfl

theorem infoH_trace_no_decode (wd : World) (h : Handler) (acc : List String)
    (i fp : String) : ∀ e ∈ (infoH wd h acc i fp).2, e.isDecodeWork = false := by
  intro e he
  rw [infoH] at he
  have h1 := loadOverride_trace wd h i fp
  have h2 := buildInfo_trace wd h i fp
  cases hov : (loadInfoJSONOverride wd h i fp).1 with
  | some j =>
    rw [hov] at he
    simp only [h1, List.mem_singleton] at he
    rw [he]; rfl
  | none =>
    rw [hov] at he
    cases hb : (buildInfoJSON wd h i fp).1 <;>
      · rw [hb] at he
        simp only [h1, h2, List.cons_append, List.nil_append, List.mem_cons] at he
        rcases he with he | he | he
        · rw [he]; rfl
        · rw [he]; rfl
        · simp at he

/-- Classification of `route`: either the trace contains no
decode/transform work at all, or the request passed both the URL grammar
check and the feature negotiation check, and the response is neither 400
nor 501. -/
theorem route_decode_classification (wd : World) (h : Handler) (p : String)
    (acc : List String) :
    (∀ e ∈ (route wd h p acc).2, e.isDecodeWork = false) ∨
    (wd.urlValid p = true ∧ wd.supported p = true ∧
      (route wd h p acc).1.status ≠ 400 ∧ (route wd h p acc).1.status ≠ 501) := by
  cases hs : splitIdent h.basePath.data p.data with
  | none =>
    left
    rw [route, hs]
    intro e he
    simp at he
  | some pr =>
    obtain ⟨identData, rest⟩ := pr
    by_cases hr : rest = []
    · left
      rw [route, hs]
      simp only [hr, if_pos rfl]
      intro e he
      simp at he
    · by_cases hi : isInfoRest rest = true
      · left
        rw [route_info_branch hs hi]
        exact infoH_trace_no_decode wd h acc _ _
      · have hi' : isInfoRest rest = false := by
          cases hb : isInfoRest rest
          · rfl
          · exact absurd hb hi
        rw [route_cmd_branch hs hr hi']
        cases himg : wd.newImageResource (String.mk identData)
            (h.tilePath ++ "/" ++ wd.idPath (String.mk identData)) with
        | ok res =>
          by_cases hv : wd.urlValid p = true
          · by_cases hsh : wd.sendHeadersOK res.filePath = true
            · by_cases hsupp : wd.supported p = true
              · cases happ : wd.apply p res with
                | error msg =>
                  right
                  refine ⟨hv, hsupp, ?_, ?_⟩ <;>
                    simp [routeCommand, himg, hv, commandH, hsh, hsupp, happ, httpError]
                | ok img =>
                  cases henc : wd.encode img (wd.format p) with
                  | error me =>
                    right
                    refine ⟨hv, hsupp, ?_, ?_⟩ <;>
                      simp [routeCommand, himg, hv, commandH, hsh, hsupp, happ, henc,
                        httpError]
                  | ok body =>
                    right
                    refine ⟨hv, hsupp, ?_, ?_⟩ <;>
                      simp [routeCommand, himg, hv, commandH, hsh, hsupp, happ, henc]
              · have hsupp' : wd.supported p = false := by
                  cases hb : wd.supported p
                  · rfl
                  · exact absurd hb hsupp
                left
                intro e he
                simp [routeCommand, himg, hv, commandH, hsh, hsupp'] at he
                rw [he]; rfl
            · have hsh' : wd.sendHeadersOK res.filePath = false := by
                cases hb : wd.sendHeadersOK res.filePath
                · rfl
                · exact absurd hb hsh
              left
              intro e he
              simp [routeCommand, himg, hv, commandH, hsh'] at he
              rw [he]; rfl
          · have hv' : wd.urlValid p = false := by
              cases hb : wd.urlValid p
              · rfl
              · exact absurd hb hv
            left
            intro e he
            simp [routeCommand, himg, hv'] at he
            rw [he]; rfl
        | errDoesNotExist =>
          left
          intro e he
          simp [routeCommand, himg] at he
          rw [he]; rfl
        | errOther msg =>
          left
          intro e he
          simp [routeCommand, himg] at he
          rw [he]; rfl

/-- Counterexample to C5 as stated: on a syntactically invalid command
path, the image resource is opened (a decode handle per spec section
4.4) before the 400 rejection is computed — here a concrete request
whose response is 400 while the trace records the resource opening. -/
theorem C5_counterexample :
    (route wBadSyntax hIIIF "/iiif/img/x" []).1.status = 400 ∧
    Eff.openResource "img" "/tiles/img" ∈ (route wBadSyntax hIIIF "/iiif/img/x" []).2 := by
  decide

/-- C5 (amended): the 400/501 rejections are computed before any
decode/transform work on pixel data (`Apply`/encode): a rejected request
has no decode work in its trace, and decode work happens only after both
the grammar check and the negotiation check have passed.  The image
resource and its decode handle, however, are opened before those checks
(see the counterexample). -/
theorem C5_amended_no_decode_before_reject :
    (∀ (wd : World) (h : Handler) (p : String) (acc : List String),
      (route wd h p acc).1.status = 400 ∨ (route wd h p acc).1.status = 501 →
      ∀ e ∈ (route wd h p acc).2, e.isDecodeWork = false)
    ∧ (∀ (wd : World) (h : Handler) (p : String) (acc : List String) (q : String),
      Eff.applyCmd q ∈ (route wd h p acc).2 →
      wd.urlValid p = true ∧ wd.supported p = true) := by
  constructor
  · intro wd h p acc hst
    rcases route_decode_classification wd h p acc with hc | hc
    · exact hc
    · rcases hst with hst | hst
      · exact absurd hst hc.2.2.1
      · exact absurd hst hc.2.2.2
  · intro wd h p acc q hm
    rcases route_decode_classification wd h p acc with hc | hc
    · have := hc _ hm
      simp [Eff.isDecodeWork] at this
    · exact ⟨hc.1, hc.2.1⟩

/-- Witness for C5 (amended): the 501 rejection of an unsupported
command carries no decode work in its trace. -/
theorem C5_witness :
    Eff.isDecodeWork (Eff.openResource "img" "/tiles/img") = false :=
  C5_amended_no_decode_before_reject.1 wUnsupported hIIIF "/iiif/img/x" []
    (Or.inr (by decide)) (Eff.openResource "img" "/tiles/img") (by decide)

theorem buildInfo_error_status {wd : World} {h : Handler} {i fp : String} {r : HResp}
    (hb : (buildInfoJSON wd h i fp).1 = .error r) : r.status = 404 ∨ r.status = 500 := by
  rw [buildInfoJSON] at hb
  cases himg : wd.newImageResource i fp with
  | ok res =>
    rw [himg] at hb
    simp only [] at hb
    cases hm : wd.marshal (infoFor wd h res) with
    | some j => rw [hm] at hb; simp at hb
    | none =>
      rw [hm] at hb
      simp only [] at hb
      injection hb with hb
      rw [← hb]
      right; rfl
  | errDoesNotExist =>
    rw [himg] at hb
    simp only [] at hb
    injection hb with hb
    rw [← hb]
    left; rfl
  | errOther msg =>
    rw [himg] at hb
    simp only [] at hb
    injection hb with hb
    rw [← hb]
    right; rfl

/-- C6: when an override document is readable, the `Info` body is the
stored bytes with the single leftmost occurrence of `%ID%` replaced by
`base URL + "/" + identifier` — and nothing else: if the token does not
occur the bytes are returned unchanged, and if its leftmost occurrence is
at index `i` only that occurrence is spliced out.  With no override, the
body is the marshalled descriptor built from the Feature Set's fields
with the resource's width, height and full URL filled in. -/
theorem C6_info_override_substitution :
    (∀ (wd : World) (h : Handler) (acc : List String)
        (identifier filepath : String) (b : List Char),
      wd.readFile (filepath ++ "-info.json") = .ok b →
      (infoH wd h acc identifier filepath).1.status = 200 ∧
      (infoH wd h acc identifier filepath).1.body =
        goReplaceOnce b "%ID%".data (h.baseURL ++ "/" ++ identifier).data)
    ∧ (∀ b new : List Char,
      (∀ i, "%ID%".data.isPrefixOf (b.drop i) = false) →
      goReplaceOnce b "%ID%".data new = b)
    ∧ (∀ (b new : List Char) (i : Nat),
      "%ID%".data.isPrefixOf (b.drop i) = true →
      (∀ j, j < i → "%ID%".data.isPrefixOf (b.drop j) = false) →
      goReplaceOnce b "%ID%".data new = b.take i ++ new ++ b.drop (i + 4))
    ∧ (∀ (wd : World) (h : Handler) (acc : List String)
        (identifier filepath : String) (res : ImageResource) (j : List Char),
      (wd.readFile (filepath ++ "-info.json") = .errNotFound ∨
        wd.readFile (filepath ++ "-info.json") = .errOther) →
      wd.newImageResource identifier filepath = .ok res →
      wd.marshal (infoFor wd h res) = some j →
      (infoH wd h acc identifier filepath).1.status = 200 ∧
      (infoH wd h acc identifier filepath).1.body = j) := by
  refine ⟨?_, ?_, ?_, ?_⟩
  · intro wd h acc identifier filepath b hread
    constructor <;> simp [infoH, loadInfoJSONOverride, hread, infoSuccess]
  · intro b new hno
    rw [goReplaceOnce, firstIdx_eq_none_of hno]
  · intro b new i h1 h2
    rw [goReplaceOnce, firstIdx_eq_some_of h1 h2]
    rfl
  · intro wd h acc identifier filepath res j hread himg hm
    rcases hread with hread | hread <;>
      (constructor <;>
        simp [infoH, loadInfoJSONOverride, hread, buildInfoJSON, himg, hm, infoSuccess])

/-- Witness for C6: the override clause at a concrete override document
`"A %ID% B"`. -/
theorem C6_witness :
    (infoH wOverrideOk hIIIF ["x"] "abc" "/tiles/abc").1.status = 200 ∧
    (infoH wOverrideOk hIIIF ["x"] "abc" "/tiles/abc").1.body =
      goReplaceOnce "A %ID% B".data "%ID%".data
        (hIIIF.baseURL ++ "/" ++ "abc").data :=
  C6_info_override_substitution.1 wOverrideOk hIIIF ["x"] "abc" "/tiles/abc"
    "A %ID% B".data (by decide)

/-- Counterexample to C7 as stated: an info.json request whose resource
is missing is answered 404 with content type `text/plain` (set by
`http.Error`), not the negotiated JSON type, even though the `Accept`
header lists `application/ld+json`. -/
theorem C7_counterexample :
    (route wNoImage hIIIF "/iiif/abc/info.json" ["application/ld+json"]).1.status = 404 ∧
    (route wNoImage hIIIF "/iiif/abc/info.json" ["application/ld+json"]).1.contentType =
      some "text/plain; charset=utf-8" := by
  decide

/-- C7 (amended): the info.json response body never depends on the
`Accept` header, and on every successful (200) info.json response the
content type is `application/ld+json` exactly when some comma-separated
part of an `Accept` header value equals `application/ld+json`, else
`application/json`.  Error responses carry `http.Error`'s plain-text
content type instead (see the counterexample). -/
theorem C7_amended_content_negotiation :
    (∀ (wd : World) (h : Handler) (identifier filepath : String)
        (acc acc2 : List String),
      (infoH wd h acc identifier filepath).1.body =
        (infoH wd h acc2 identifier filepath).1.body)
    ∧ (∀ (wd : World) (h : Handler) (identifier filepath : String)
        (acc : List String),
      (infoH wd h acc identifier filepath).1.status = 200 →
      (infoH wd h acc identifier filepath).1.contentType =
        some (if acceptsLD acc then "application/ld+json" else "application/json"))
    ∧ (∀ acc : List String, acceptsLD acc = true ↔
        ∃ v ∈ acc, "application/ld+json" ∈ v.splitOn ",") := by
  refine ⟨?_, ?_, ?_⟩
  · intro wd h identifier filepath acc acc2
    cases hov : (loadInfoJSONOverride wd h identifier filepath).1 with
    | some j => simp [infoH, hov, infoSuccess]
    | none =>
      cases hb : (buildInfoJSON wd h identifier filepath).1 <;>
        simp [infoH, hov, hb, infoSuccess]
  · intro wd h identifier filepath acc hst
    cases hov : (loadInfoJSONOverride wd h identifier filepath).1 with
    | some j => simp [infoH, hov, infoSuccess]
    | none =>
      cases hb : (buildInfoJSON wd h identifier filepath).1 with
      | ok j => simp [infoH, hov, hb, infoSuccess]
      | error r =>
        rw [infoH, hov, hb] at hst
        simp at hst
        rcases buildInfo_error_status hb with h4 | h5
        · rw [h4] at hst; cases hst
        · rw [h5] at hst; cases hst
  · intro acc
    simp [acceptsLD, List.any_eq_true]

/-- Witness for C7 (amended): content negotiation on a successful
generated descriptor with `Accept: application/ld+json`. -/
theorem C7_witness :
    (infoH wOkAll hIIIF ["application/ld+json"] "abc" "/tiles/abc").1.contentType =
      some (if acceptsLD ["application/ld+json"] then "application/ld+json"
            else "application/json") :=
  C7_amended_content_negotiation.2.1 wOkAll hIIIF "abc" "/tiles/abc"
    ["application/ld+json"] (by decide)

/-- Counterexample to C8 as stated: an override file that exists but
fails to read with an error other than not-found is silently skipped —
the response is still a successful 200 with the generated descriptor,
so that error condition is swallowed too (the code comments even say
"If an override file isn't found or has an error, just skip it"). -/
theorem C8_counterexample :
    wOverrideBad.readFile ("/tiles/abc" ++ "-info.json") = .errOther ∧
    (infoH wOverrideBad hIIIF [] "abc" "/tiles/abc").1.status = 200 ∧
    (infoH wOverrideBad hIIIF [] "abc" "/tiles/abc").1.body = "GEN".data := by
  decide

/-- C8 (amended): every failure to read the override document — missing
file or any other read error — is silently handled by falling back to the
generated descriptor, with an identical response in either case; the
remaining error conditions of the info path are surfaced: a non-missing
resource error gives 500, a marshalling failure gives 500 (and a missing
resource gives 404, per the C4 theorem). -/
theorem C8_amended_override_fallback :
    (∀ (wd : World) (f2 : String → ReadResult) (h : Handler) (acc : List String)
        (identifier filepath : String),
      wd.readFile (filepath ++ "-info.json") = .errNotFound →
      f2 (filepath ++ "-info.json") = .errOther →
      infoH { wd with readFile := f2 } h acc identifier filepath =
        infoH wd h acc identifier filepath)
    ∧ (∀ (wd : World) (h : Handler) (acc : List String)
        (identifier filepath msg : String),
      (wd.readFile (filepath ++ "-info.json") = .errNotFound ∨
        wd.readFile (filepath ++ "-info.json") = .errOther) →
      wd.newImageResource identifier filepath = .errOther msg →
      (infoH wd h acc identifier filepath).1.status = 500)
    ∧ (∀ (wd : World) (h : Handler) (acc : List String)
        (identifier filepath : String) (res : ImageResource),
      (wd.readFile (filepath ++ "-info.json") = .errNotFound ∨
        wd.readFile (filepath ++ "-info.json") = .errOther) →
      wd.newImageResource identifier filepath = .ok res →
      wd.marshal (infoFor wd h res) = none →
      (infoH wd h acc identifier filepath).1.status = 500) := by
  refine ⟨?_, ?_, ?_⟩
  · intro wd f2 h acc identifier filepath hrd1 hrd2
    have hbuild : buildInfoJSON { wd with readFile := f2 } h identifier filepath =
        buildInfoJSON wd h identifier filepath := rfl
    simp only [infoH, loadInfoJSONOverride, hrd1, hrd2, hbuild]
  · intro wd h acc identifier filepath msg hread himg
    rcases hread with hread | hread <;>
      simp [infoH, loadInfoJSONOverride, hread, buildInfoJSON, himg,
        newImageResError, httpError]
  · intro wd h acc identifier filepath res hread himg hm
    rcases hread with hread | hread <;>
      simp [infoH, loadInfoJSONOverride, hread, buildInfoJSON, himg, hm, httpError]

/-- Witness for C8 (amended): missing override and unreadable override
produce identical responses at a concrete world. -/
theorem C8_witness :
    infoH { wNoImage with readFile := fun _ => ReadResult.errOther } hIIIF []
        "abc" "/tiles/abc" =
      infoH wNoImage hIIIF [] "abc" "/tiles/abc" :=
  C8_amended_override_fallback.1 wNoImage (fun _ => ReadResult.errOther) hIIIF []
    "abc" "/tiles/abc" (by decide) rfl

end Rais
